import Mathlib

/-!
Verification of the cp-shell Remote Execution and File Transport Engine.

Shallow embedding of the path router (`utils.get_dev_and_path`,
`utils.resolve_path`, `utils.auto`, `device.Device.is_root_path`), the
remote-call machinery (`device.Device.remote`, `device.strip_source`,
`device.Device.remote_eval`, `cpboard.CpBoard.follow`, `CpBoard.exec`),
the raw-mode executor (`cpboard.CpBoard.exec_raw_no_follow`,
`CpBoard.read_until`) and the hex file-transfer hooks
(`utils.send_file_to_remote`, `utils.recv_file_from_host`,
`utils.recv_file_from_remote`).

Python strings are modelled as `List Char`, byte strings as `List Nat`
(each element < 256 where it matters).
-/

namespace CpShell

/-- Python `s.split(c)` on character lists: `"".split(c) = [""]`,
separators delimit possibly empty fields. -/
def splitChar (c : Char) : List Char → List (List Char)
  | [] => [[]]
  | a :: as =>
    if a = c then [] :: splitChar c as
    else
      match splitChar c as with
      | [] => [[a]]
      | h :: t => (a :: h) :: t

/-- Python `sep.join(parts)` on character lists. -/
def joinSep (sep : List Char) : List (List Char) → List Char
  | [] => []
  | [l] => l
  | l :: ls => l ++ sep ++ joinSep sep ls

/-! ## Path normalisation: `utils.resolve_path` -/

/-- One step of the component-filtering loop in `utils.resolve_path`
(utils.py lines 63-75): `.` components and empty components (except a
leading one) are dropped, `..` pops the previous component when more than
one is present, everything else is appended. -/
def pathStep (acc : List (List Char)) (comp : List Char) : List (List Char) :=
  if comp = ['.'] ∨ (comp = [] ∧ acc ≠ []) then acc
  else if comp = ['.', '.'] then (if 1 < acc.length then acc.dropLast else acc)
  else acc ++ [comp]

/-- The absolute path assembled by `utils.resolve_path` before component
filtering: `~` expansion (via `eu`, modelling `os.path.expanduser`), then
prefixing relative paths with `cur_dir` (utils.py lines 54-62). -/
def absOf (eu : List Char → List Char) (path cur_dir : List Char) :
    List Char :=
  let path1 := if path.head? = some '~' then eu path else path
  if path1.head? = some '/' then path1
  else if cur_dir.getLast? = some '/' then cur_dir ++ path1
  else cur_dir ++ '/' :: path1

/-- Component filtering and rejoining of `utils.resolve_path`
(utils.py lines 63-78). -/
def normalizeAbs (path2 : List Char) : List Char :=
  let newComps := (splitChar '/' path2).foldl pathStep []
  if newComps = [[]] then ['/'] else joinSep ['/'] newComps

/-- `utils.resolve_path` (utils.py lines 50-78).  A `:`-prefixed path is
returned unchanged (or `:/` when it is a bare `:`); otherwise the path is
made absolute and its components are filtered and rejoined with `/`. -/
def resolve_path (eu : List Char → List Char) (path cur_dir : List Char) :
    List Char :=
  if path.head? = some ':' then
    (if 1 < path.length then path else [':', '/'])
  else normalizeAbs (absOf eu path cur_dir)

/-! ## Path router: `Device.is_root_path`, `utils.get_dev_and_path`,
`utils.auto` -/

/-- The per-session routing state: the root directories enumerated on
attach (each of the form `/NAME/`) and the derived `name_path`
(`/<device name>/`). -/
structure DevState where
  root_dirs : List (List Char)
  name_path : List Char
deriving DecidableEq, Repr

/-- `Device.is_root_path` (device.py lines 132-138): true when
`filename + "/"` starts with one of the session's root directories. -/
def DevState.is_root_path (d : DevState) (filename : List Char) : Bool :=
  d.root_dirs.any (fun root_dir => root_dir.isPrefixOf (filename ++ ['/']))

/-- `utils.get_dev_and_path` (utils.py lines 120-146).  `dev` models
`device.Device.get_device()`, the process-wide current-device slot. -/
def get_dev_and_path (dev : Option DevState) (filename : List Char) :
    Option DevState × List Char :=
  if filename.head? = some ':' then (dev, filename.drop 1)
  else
    match dev with
    | some d =>
      if d.is_root_path filename then (some d, filename)
      else if d.name_path.isPrefixOf (filename ++ ['/']) then
        let dev_filename := filename.drop (d.name_path.length - 1)
        (some d, if dev_filename = [] then ['/'] else dev_filename)
      else (none, filename)
    | none => (none, filename)

/-- Where `utils.auto` dispatches a call: locally on the host (with the
possibly `~`-expanded file name) or remotely through `remote_eval`. -/
inductive AutoRoute where
  | localCall (arg : List Char)
  | remoteCall (d : DevState) (arg : List Char)
deriving DecidableEq, Repr

/-- `utils.auto` (utils.py lines 109-118): routes through
`get_dev_and_path`; with no device the helper runs on the host (after
`~` expansion of the returned name), otherwise it is shipped to the
device. -/
def auto (dev : Option DevState) (filename : List Char)
    (eu : List Char → List Char) : AutoRoute :=
  match get_dev_and_path dev filename with
  | (none, fn) => .localCall (if fn.head? = some '~' then eu fn else fn)
  | (some d, fn) => .remoteCall d fn

/-- The router description given by the specification: leading `:` forces
the current device with the colon stripped; a path inside a root
directory is remote and unchanged; a path under `name_path` is remote
with the prefix up to (but excluding) its trailing slash removed, an
empty remainder becoming `/`; anything else is local and unchanged. -/
def routeSpec (d : DevState) (p : List Char) : Option DevState × List Char :=
  if p.head? = some ':' then (some d, p.drop 1)
  else if d.root_dirs.any (fun root => root.isPrefixOf (p ++ ['/'])) then
    (some d, p)
  else if d.name_path.isPrefixOf (p ++ ['/']) then
    let rem := p.drop d.name_path.dropLast.length
    (some d, if rem = [] then ['/'] else rem)
  else (none, p)

/-- A path component as produced by one pass of `resolve_path`: nonempty,
not `.`, not `..`, and free of slashes. -/
def CleanComp (l : List Char) : Prop :=
  l ≠ [] ∧ l ≠ ['.'] ∧ l ≠ ['.', '.'] ∧ '/' ∉ l

instance (l : List Char) : Decidable (CleanComp l) := by
  unfold CleanComp; infer_instance

/-- The normalised form of an absolute path: `/` when no components
survive, otherwise `/`-joined components prefixed by the empty leading
component. -/
def normedOf (t : List (List Char)) : List Char :=
  if t = [] then ['/'] else joinSep ['/'] ([] :: t)

/-- Whether an `auto` dispatch runs on the host. -/
def AutoRoute.isLocal : AutoRoute → Bool
  | .localCall _ => true
  | .remoteCall _ _ => false

/-! ## Line driver: `CpBoard.read_until` (cpboard.py lines 95-114)

The serial line is modelled as a script of 10 ms poll slices: `some b`
means `inWaiting() > 0` held and `read(1)` yielded byte `b`; `none` means
the buffer was empty for that slice.  Once the script is exhausted the
buffer stays empty, so the loop returns its buffer unchanged (by the
sentinel test or by the idle timeout). -/

/-- Result of `read_until`: the accumulated buffer, the unconsumed tail
of the poll script, and the chunks handed to `data_consumer`. -/
structure ReadUntilResult where
  data : List Nat
  rest : List (Option Nat)
  sink : List (List Nat)
deriving DecidableEq, Repr

/-- The polling loop of `CpBoard.read_until`: stop when the buffer ends
with `ending`; otherwise a byte is appended (and the idle counter reset),
an empty slice increments the idle counter, and the loop stops once
`timeout_count >= 100 * timeout`. -/
def read_until_loop (ending : List Nat) (tmo : ℚ) :
    List (Option Nat) → List Nat → Nat → ReadUntilResult
  | [], data, _ => ⟨data, [], []⟩
  | p :: ps, data, count =>
    if ending.isSuffixOf data then ⟨data, p :: ps, []⟩
    else
      match p with
      | some b =>
        let r := read_until_loop ending tmo ps (data ++ [b]) 0
        ⟨r.data, r.rest, [b] :: r.sink⟩
      | none =>
        if (100 : ℚ) * tmo ≤ (count : ℚ) + 1 then ⟨data, ps, []⟩
        else read_until_loop ending tmo ps data (count + 1)

/-- `CpBoard.read_until`: `init` is the result of the initial
`serial.read(min_num_bytes)`; it is handed to the data consumer as the
first chunk, then the polling loop runs with the idle counter at 0. -/
def read_until (ending : List Nat) (tmo : ℚ) (init : List Nat)
    (polls : List (Option Nat)) : ReadUntilResult :=
  let r := read_until_loop ending tmo polls init 0
  ⟨r.data, r.rest, init :: r.sink⟩

/-! ## Raw-mode executor: `CpBoard.exec_raw_no_follow`
(cpboard.py lines 165-186) -/

/-- Serial events performed by `exec_raw_no_follow` after the prompt
check: writes, the inter-chunk pause (`time.sleep(chunk_wait)`), and the
final `serial.read(2)` returning `got`. -/
inductive WireEv where
  | write (bs : List Nat)
  | sleepChunkWait
  | readTwo (got : List Nat)
deriving DecidableEq, Repr

/-- `command_bytes[i:i+chunk_size]` for `i in range(0, len, chunk_size)`:
the chunking of the command performed by the write loop. -/
def chunked (c : Nat) (hc : 0 < c) : List Nat → List (List Nat)
  | [] => []
  | a :: cmd => ((a :: cmd).take c) :: chunked c hc ((a :: cmd).drop c)
termination_by l => l.length
decreasing_by simp; omega

/-- Outcome of `exec_raw_no_follow`: the serial events performed and the
raised `CpBoardError` message, if any. -/
structure ExecRawOutcome where
  trace : List WireEv
  error : Option (List Char)
deriving DecidableEq, Repr

/-- `CpBoard.exec_raw_no_follow`: check that the `read_until(1, b">")`
result (`promptBuf`) ends with `>`; write the command in chunks with a
pause after each; write one `0x04`; read two bytes (`ackBuf`) and require
`OK`. -/
def exec_raw_no_follow (c : Nat) (hc : 0 < c)
    (promptBuf ackBuf command_bytes : List Nat) : ExecRawOutcome :=
  if ¬ [62].isSuffixOf promptBuf then
    ⟨[], some "could not enter raw repl".toList⟩
  else
    let chunkEvs := (chunked c hc command_bytes).flatMap
      (fun ch => [WireEv.write ch, WireEv.sleepChunkWait])
    let trace := chunkEvs ++ [WireEv.write [4], WireEv.readTwo ackBuf]
    if ackBuf = [79, 75] then ⟨trace, none⟩
    else ⟨trace, some "could not exec command".toList⟩

/-! ## Snippet output handling: `CpBoard.follow`, `Device.remote`,
`Device.remote_eval`, `CpBoard.exec` -/

/-- `CpBoard.follow` (cpboard.py lines 149-163): `stdoutRaw` and
`stderrRaw` are the two `read_until(1, b"\x04")` results.  Each must end
with `0x04` (else `CpBoardError`); the terminators are stripped and both
streams returned. -/
def follow (stdoutRaw stderrRaw : List Nat) :
    Except (List Char) (List Nat × List Nat) :=
  if ¬ [4].isSuffixOf stdoutRaw then
    .error "timeout waiting for first EOF reception".toList
  else if ¬ [4].isSuffixOf stderrRaw then
    .error "timeout waiting for second EOF reception".toList
  else .ok (stdoutRaw.dropLast, stderrRaw.dropLast)

/-- The result handling of `Device.remote` (device.py lines 195-202):
`output, _ = self.cpb.follow(timeout=20)` — the stderr stream is
discarded and only the stdout stream is returned. -/
def Device.remote_result (stdoutRaw stderrRaw : List Nat) :
    Except (List Char) (List Nat) :=
  (follow stdoutRaw stderrRaw).map (fun r => r.1)

/-- `Device.remote_eval` (device.py lines 210-214):
`eval(self.remote(func, ...))`; `evalF` models the host `eval` applied to
the returned stdout bytes. -/
def Device.remote_eval (evalF : List Nat → Int)
    (stdoutRaw stderrRaw : List Nat) : Except (List Char) Int :=
  (Device.remote_result stdoutRaw stderrRaw).map evalF

/-- `CpBoard.exec` (cpboard.py lines 197-201): runs the snippet via
`exec_raw` and raises `CpBoardError('exception', ret, ret_err)` when the
stderr stream is nonempty; `Device.remote` and `Device.remote_eval` do
not route through this method. -/
def CpBoard.exec (stdoutRaw stderrRaw : List Nat) :
    Except (List Char × List Nat × List Nat) (List Nat) :=
  match follow stdoutRaw stderrRaw with
  | .error e => .error (e, [], [])
  | .ok (ret, ret_err) =>
    if ret_err ≠ [] then .error ("exception".toList, ret, ret_err)
    else .ok ret

/-! ## Hex framing: `binascii.hexlify` / `binascii.unhexlify` -/

/-- Lowercase hex digit of a nibble, as its ASCII code
(`binascii.hexlify` emits lowercase). -/
def hexDigit (n : Nat) : Nat := if n < 10 then 48 + n else 87 + n

/-- `binascii.hexlify`: each byte becomes two ASCII hex characters. -/
def hexlify : List Nat → List Nat
  | [] => []
  | b :: bs => hexDigit (b / 16) :: hexDigit (b % 16) :: hexlify bs

/-- Value of an ASCII hex character. -/
def unhexDigit (c : Nat) : Nat :=
  if 48 ≤ c ∧ c ≤ 57 then c - 48
  else if 97 ≤ c ∧ c ≤ 102 then c - 87
  else if 65 ≤ c ∧ c ≤ 70 then c - 55
  else 0

/-- `binascii.unhexlify`: pairs of ASCII hex characters back to bytes. -/
def unhexlify : List Nat → List Nat
  | c1 :: c2 :: cs => (16 * unhexDigit c1 + unhexDigit c2) :: unhexlify cs
  | _ => []

/-! ## File transfer hooks (utils.py lines 605-685)

`utils.send_file_to_remote` is the host side of a host→device copy and
pairs with `utils.recv_file_from_host` running on the device;
`utils.recv_file_from_remote` is the host side of a device→host copy.
`dev.read` results are modelled as scripts (`acks`, `wire`); an exhausted
script stands for a link that has gone quiet, so `dev.read` yields `b""`.
The explicit `fuel` argument (always instantiated with a bound that the
loop counter provably respects) makes the loops structurally recursive;
running out of fuel is reported as `stalled`/`none` and corresponds to a
loop that makes no progress (possible only for a zero window size). -/

/-- Outcome of the window loop of `send_file_to_remote`
(utils.py lines 647-659). -/
structure SendResult where
  windows : List (List Nat)
  acksRead : Nat
  failedAck : Option (List Nat)
  stalled : Bool
deriving DecidableEq, Repr

/-- The window loop of `send_file_to_remote`: while bytes remain, read
one ACK byte (raising `RuntimeError` unless it is `0x06`), then write the
next `min(remaining, buf_size // 2)` source bytes hex-encoded. -/
def send_loop (halfB : Nat) : Nat → List Nat → List (List Nat) → SendResult
  | 0, src, _ => if src = [] then ⟨[], 0, none, false⟩ else ⟨[], 0, none, true⟩
  | fuel + 1, src, acks =>
    if src = [] then ⟨[], 0, none, false⟩
    else
      let ack := acks.headD []
      if ack ≠ [6] then ⟨[], 1, some ack, false⟩
      else
        let w := min src.length halfB
        let r := send_loop halfB fuel (src.drop w) acks.tail
        ⟨hexlify (src.take w) :: r.windows, r.acksRead + 1, r.failedAck,
          r.stalled⟩

/-- Full outcome of `send_file_to_remote`, including its assignments to
`dev.timeout` (in order) and the final timeout value. -/
structure SendFileOutcome where
  windows : List (List Nat)
  acksRead : Nat
  failedAck : Option (List Nat)
  stalled : Bool
  timeoutsSet : List ℚ
  finalTimeout : ℚ
deriving DecidableEq, Repr

/-- `utils.send_file_to_remote` (utils.py lines 640-661): saves
`dev.timeout`, sets it to 2, runs the window loop, and restores the saved
timeout — but only on normal exit: the `RuntimeError` raised on a bad ACK
propagates before the restore, leaving the timeout at 2. -/
def send_file_to_remote (t0 : ℚ) (halfB : Nat) (src : List Nat)
    (acks : List (List Nat)) : SendFileOutcome :=
  let r := send_loop halfB src.length src acks
  match r.failedAck with
  | none => ⟨r.windows, r.acksRead, none, r.stalled, [2, t0], t0⟩
  | some a => ⟨r.windows, r.acksRead, some a, r.stalled, [2], 2⟩

/-- Outcome of `recv_file_from_remote`: bytes written to the
destination, ACKs written to the device, whether the inner read loop
stalled, the assignments to `dev.timeout` (none occur in its source),
and the final timeout. -/
structure RecvFileOutcome where
  written : List Nat
  acksWritten : Nat
  stalled : Bool
  timeoutsSet : List ℚ
  finalTimeout : ℚ
deriving DecidableEq, Repr

/-- The window loop of `recv_file_from_remote` (utils.py lines 671-685):
per window, gather `min(remaining, buf_size)` hex characters from the
link, un-hexlify them to the destination, then write one `0x06` ACK. -/
def recv_loop (bufB : Nat) : Nat → Nat → List Nat → List Nat × Nat × Bool
  | 0, remHex, _ => ([], 0, remHex ≠ 0)
  | fuel + 1, remHex, wire =>
    if remHex = 0 then ([], 0, false)
    else
      let read_size := min remHex bufB
      if wire.length < read_size then ([], 0, true)
      else
        let r := recv_loop bufB fuel (remHex - read_size) (wire.drop read_size)
        (unhexlify (wire.take read_size) ++ r.1, r.2.1 + 1, r.2.2)

/-- `utils.recv_file_from_remote` (utils.py lines 664-685): doubles the
byte count (hex framing) and runs the window loop.  Its source contains
no assignment to `dev.timeout`, so `timeoutsSet` is empty and the final
timeout is the entry value. -/
def recv_file_from_remote (t0 : ℚ) (filesize bufB : Nat) (wire : List Nat) :
    RecvFileOutcome :=
  let r := recv_loop bufB (filesize * 2) (filesize * 2) wire
  ⟨r.1, r.2.1, r.2.2, [], t0⟩

/-- Lockstep composition of host `send_file_to_remote` with the
device-side `recv_file_from_host` (utils.py lines 605-637) under healthy
ACK flow.  Each round: the device writes its `0x06` ACK, the host (if
bytes remain) appends the next `min(remaining, halfB)` source bytes
hex-encoded to the wire, and the device then needs
`min(2 * remaining, buf_size)` hex characters.  If fewer are on the wire
the device blocks — the host sends nothing more before the next ACK — so
the transfer deadlocks (`none`).  On success the returned list is what
the device writes to the destination file. -/
def xfer_host_to_device (halfB bufB : Nat) :
    Nat → Nat → List Nat → List Nat → Option (List Nat)
  | 0, devRem, _, _ => if devRem = 0 then some [] else none
  | fuel + 1, devRem, srcRest, pending =>
    if devRem = 0 then some []
    else
      let w := min srcRest.length halfB
      let pending2 := pending ++ hexlify (srcRest.take w)
      let d := min devRem bufB
      if pending2.length < d then none
      else
        (xfer_host_to_device halfB bufB fuel (devRem - d) (srcRest.drop w)
          (pending2.drop d)).map
          (fun out => unhexlify (pending2.take d) ++ out)

/-- State observed by `Device.remote`'s exception handling
(device.py lines 186-208): the process-wide current-device slot
(`Device._device`, modelled by an opaque tag) and whether the session's
`cpb` is open. -/
structure RemoteDispatch where
  slot : Option Nat
  cpbOpen : Bool
  raised : Option (List Char)
deriving DecidableEq, Repr

/-- The effect of `Device.remote` around the xfer hook: on success,
session and slot untouched; an exception from the hook (such as the
transfer-desync `RuntimeError`) reaches the bare `except:`, which calls
`exit_raw_repl()`, `self.close()` (setting `cpb = None`, i.e. closing
the session) and re-raises.  The class attribute `Device._device` is not
modified on this path. -/
def Device.remote_xfer_dispatch (slot : Option Nat) (cpbOpen : Bool)
    (xferError : Option (List Char)) : RemoteDispatch :=
  match xferError with
  | none => ⟨slot, cpbOpen, none⟩
  | some e => ⟨slot, false, some e⟩

/-! ## Remote source synthesis: `strip_source` and `Device.remote`
(device.py lines 23-54 and 153-185)

`tokenize.generate_tokens` is the interpreter's tokenizer, external to
this code base; a token stream is therefore a parameter.  Only the token
kinds that `strip_source` distinguishes are modelled. -/

/-- The token kinds `strip_source` distinguishes: `token.INDENT`,
`token.STRING`, `tokenize.COMMENT`, and everything else. -/
inductive TokKind where
  | INDENT
  | STRING
  | COMMENT
  | OTHER
deriving DecidableEq, Repr

/-- One token: kind, text, and the start/end positions
`(slineno, scol)`, `(elineno, ecol)` reported by the tokenizer. -/
structure Tok where
  kind : TokKind
  text : List Char
  slineno : Nat
  scol : Nat
  elineno : Nat
  ecol : Nat
deriving DecidableEq, Repr

/-- The characters removed by `.rstrip(' \t\n')`. -/
def isStripWs (c : Char) : Bool := c = ' ' || c = '\t' || c = '\n'

/-- Python `s.rstrip(' \t\n')`. -/
def rstripWs (s : List Char) : List Char :=
  (s.reverse.dropWhile isStripWs).reverse

/-- The token loop of `strip_source` (device.py lines 32-53): reset the
column on a new line, pad up to the token's start column, then drop the
text of docstrings (a STRING right after an INDENT) and comments —
rstripping the accumulated text — and append every other token's text. -/
def stripSourceLoop : List Tok → List Char → TokKind → Int → Nat → List Char
  | [], mod, _, _, _ => mod
  | t :: ts, mod, prev, lastLine, lastCol =>
    let lastCol2 := if (t.slineno : Int) > lastLine then 0 else lastCol
    let mod2 :=
      if lastCol2 < t.scol then mod ++ List.replicate (t.scol - lastCol2) ' '
      else mod
    let mod3 :=
      if t.kind = TokKind.STRING ∧ prev = TokKind.INDENT then rstripWs mod2
      else if t.kind = TokKind.COMMENT then rstripWs mod2
      else mod2 ++ t.text
    stripSourceLoop ts mod3 t.kind (t.elineno : Int) t.ecol

/-- `strip_source` (device.py lines 23-54) applied to a token stream:
initial state `prev = INDENT`, `last_lineno = -1`, `last_col = 0`. -/
def strip_source (ts : List Tok) : List Char :=
  stripSourceLoop ts [] TokKind.INDENT (-1) 0

/-- The text of the tokens `strip_source` keeps (everything except
comments and docstrings), in order. -/
def keptText : TokKind → List Tok → List Char
  | _, [] => []
  | prev, t :: ts =>
    (if (t.kind = TokKind.STRING ∧ prev = TokKind.INDENT) ∨
        t.kind = TokKind.COMMENT then []
     else t.text) ++ keptText t.kind ts

/-- A token stream with no comments and no docstring-position strings. -/
def noStripTokens : TokKind → List Tok → Prop
  | _, [] => True
  | prev, t :: ts =>
    ¬ t.kind = TokKind.COMMENT ∧
    ¬ (t.kind = TokKind.STRING ∧ prev = TokKind.INDENT) ∧
    noStripTokens t.kind ts

/-- The same loop without the two stripping branches: it reproduces each
token's text at its column. -/
def renderLoop : List Tok → List Char → Int → Nat → List Char
  | [], mod, _, _ => mod
  | t :: ts, mod, lastLine, lastCol =>
    let lastCol2 := if (t.slineno : Int) > lastLine then 0 else lastCol
    let mod2 :=
      if lastCol2 < t.scol then mod ++ List.replicate (t.scol - lastCol2) ' '
      else mod
    renderLoop ts (mod2 ++ t.text) (t.elineno : Int) t.ecol

/-- `renderLoop` from the initial state of `strip_source`. -/
def renderTokens (ts : List Tok) : List Char :=
  renderLoop ts [] (-1) 0

/-- The line assembly of `Device.remote` for a helper with
`extra_funcs` (device.py lines 155-162): each extra helper's source
split into lines followed by a blank line, then the primary helper's
source lines with every line starting with `@` removed
(`filter(lambda line: line[:1] != '@', ...)`). -/
def remoteFuncLines (extraSources : List (List Char))
    (primarySource : List Char) : List (List Char) :=
  (extraSources.flatMap (fun src => splitChar '\n' src ++ [[]])) ++
    (splitChar '\n' primarySource).filter (fun line => line.take 1 ≠ ['@'])

/-- The fixed trailer appended by `Device.remote`
(device.py lines 169-179). -/
def remoteTrailer (func_name : List Char)
    (argsArr kwargsArr : List (List Char)) : List Char :=
  "try:\n  output = ".toList ++ func_name ++ ['('] ++
    joinSep ", ".toList (argsArr ++ kwargsArr) ++
    (")\nexcept Exception as ex:\n  print(ex)\n  output = None\n" ++
      "if output is None:\n  print(\"None\")\nelse:\n  print(output)\n").toList

/-- Python `s.replace(pat, rep)`: leftmost, non-overlapping. -/
def replaceAll (pat rep : List Char) : List Char → List Char
  | [] => []
  | a :: s =>
    if h : pat ≠ [] ∧ pat.isPrefixOf (a :: s) then
      rep ++ replaceAll pat rep ((a :: s).drop pat.length)
    else a :: replaceAll pat rep s
termination_by s => s.length
decreasing_by
  · simp only [List.length_drop, List.length_cons]
    have : pat ≠ [] := h.1
    cases pat with
    | nil => exact absurd rfl this
    | cons p ps => simp; omega
  · simp

/-- The full source shipped by `Device.remote` for a helper with extras
(device.py lines 155-180): assembled lines joined with newlines, comments
and docstrings stripped, the call trailer appended, and `BUFFER_SIZE`
replaced by the configured buffer size. -/
def remote_func_src (tokenize : List Char → List Tok) (buffer_size : Nat)
    (extraSources : List (List Char)) (primarySource : List Char)
    (func_name : List Char) (argsArr kwargsArr : List (List Char)) :
    List Char :=
  replaceAll "BUFFER_SIZE".toList (Nat.toDigits 10 buffer_size)
    (strip_source
        (tokenize (joinSep ['\n'] (remoteFuncLines extraSources
          primarySource))) ++
      remoteTrailer func_name argsArr kwargsArr)

/-! ## Properties of `splitChar` and `joinSep` -/

theorem splitChar_ne_nil (c : Char) (s : List Char) : splitChar c s ≠ [] := by
  cases s with
  | nil => simp [splitChar]
  | cons a as =>
    simp only [splitChar]
    split
    · simp
    · split <;> simp

theorem splitChar_cons_sep (c : Char) (s : List Char) :
    splitChar c (c :: s) = [] :: splitChar c s := by
  simp [splitChar]

/-- Splitting distributes over a separator occurrence. -/
theorem splitChar_append_cons (c : Char) (u v : List Char) :
    splitChar c (u ++ c :: v) = splitChar c u ++ splitChar c v := by
  induction u with
  | nil => simp [splitChar]
  | cons a as ih =>
    by_cases h : a = c
    · subst h
      simp [splitChar, ih]
    · simp only [List.cons_append, splitChar, h, if_false, List.append_eq]
      rw [ih]
      cases has : splitChar c as with
      | nil => exact absurd has (splitChar_ne_nil c as)
      | cons h' t' => simp

/-- A chunk with no separators splits to itself. -/
theorem splitChar_of_not_mem (c : Char) (l : List Char) (h : c ∉ l) :
    splitChar c l = [l] := by
  induction l with
  | nil => simp [splitChar]
  | cons a as ih =>
    simp only [List.mem_cons, not_or] at h
    have ha : ¬ a = c := fun hc => h.1 hc.symm
    simp only [splitChar, ha, if_false]
    rw [ih h.2]

/-- No field produced by `splitChar` contains the separator. -/
theorem not_mem_of_mem_splitChar (c : Char) (s : List Char) :
    ∀ l ∈ splitChar c s, c ∉ l := by
  induction s with
  | nil => intro l hl; simp [splitChar] at hl; simp [hl]
  | cons a as ih =>
    intro l hl
    simp only [splitChar] at hl
    split at hl
    · rcases List.mem_cons.mp hl with h | h
      · simp [h]
      · exact ih l h
    · rename_i ha
      cases has : splitChar c as with
      | nil => exact absurd has (splitChar_ne_nil c as)
      | cons h' t' =>
        rw [has] at hl
        rcases List.mem_cons.mp hl with h | h
        · subst h
          intro hmem
          rcases List.mem_cons.mp hmem with h | h
          · exact ha h.symm
          · exact ih h' (has ▸ List.mem_cons_self h' t') h
        · exact ih l (has ▸ List.mem_cons_of_mem h' h)

/-- `splitChar` is a left inverse of `joinSep [c]` on nonempty lists of
separator-free fields. -/
theorem splitChar_joinSep (c : Char) (L : List (List Char)) (hne : L ≠ [])
    (h : ∀ l ∈ L, c ∉ l) : splitChar c (joinSep [c] L) = L := by
  induction L with
  | nil => exact absurd rfl hne
  | cons l ls ih =>
    cases ls with
    | nil =>
      simp only [joinSep]
      exact splitChar_of_not_mem c l (h l (List.mem_cons_self l []))
    | cons l2 ls2 =>
      have : joinSep [c] (l :: l2 :: ls2) = l ++ c :: joinSep [c] (l2 :: ls2) := by
        simp [joinSep]
      rw [this, splitChar_append_cons,
        splitChar_of_not_mem c l (h l (List.mem_cons_self l (l2 :: ls2))),
        ih (by simp) (fun x hx => h x (List.mem_cons_of_mem l hx))]
      simp

/-! ## Properties of the component-filtering fold -/

theorem pathStep_clean (acc : List (List Char)) (c : List Char)
    (hc : CleanComp c) : pathStep acc c = acc ++ [c] := by
  obtain ⟨h1, h2, h3, _⟩ := hc
  simp [pathStep, h1, h2, h3]

theorem pathStep_nil_of_ne (acc : List (List Char)) (h : acc ≠ []) :
    pathStep acc [] = acc := by
  simp [pathStep, h]

/-- Clean components are simply appended by the fold. -/
theorem foldl_pathStep_clean (t : List (List Char)) :
    ∀ acc, acc ≠ [] → (∀ x ∈ t, CleanComp x) →
      t.foldl pathStep acc = acc ++ t := by
  induction t with
  | nil => intro acc _ _; simp
  | cons c cs ih =>
    intro acc hacc hclean
    have hc : CleanComp c := hclean c (List.mem_cons_self c cs)
    rw [List.foldl_cons, pathStep_clean acc c hc,
      ih (acc ++ [c]) (by simp) (fun x hx => hclean x (List.mem_cons_of_mem c hx))]
    simp

/-- Invariant of the filtering fold: starting from `[] :: t` with `t`
clean, the fold yields `[] :: t'` with `t'` clean. -/
theorem foldl_pathStep_inv (comps : List (List Char)) :
    ∀ t, (∀ x ∈ t, CleanComp x) → (∀ x ∈ comps, '/' ∉ x) →
      ∃ t', (∀ x ∈ t', CleanComp x) ∧
        comps.foldl pathStep ([] :: t) = [] :: t' := by
  induction comps with
  | nil => intro t ht _; exact ⟨t, ht, by simp⟩
  | cons c cs ih =>
    intro t ht hsl
    have hslc : '/' ∉ c := hsl c (List.mem_cons_self c cs)
    have hsl' : ∀ x ∈ cs, '/' ∉ x := fun x hx => hsl x (List.mem_cons_of_mem c hx)
    rw [List.foldl_cons]
    by_cases hdot : c = ['.']
    · have : pathStep ([] :: t) c = [] :: t := by simp [pathStep, hdot]
      rw [this]; exact ih t ht hsl'
    by_cases hnil : c = []
    · have : pathStep ([] :: t) c = [] :: t := by simp [pathStep, hnil]
      rw [this]; exact ih t ht hsl'
    by_cases hdd : c = ['.', '.']
    · cases t with
      | nil =>
        have : pathStep [[]] c = [[]] := by simp [pathStep, hdot, hnil, hdd]
        rw [this]; exact ih [] (by simp) hsl'
      | cons x xs =>
        have : pathStep ([] :: x :: xs) c = [] :: (x :: xs).dropLast := by
          simp [pathStep, hdot, hnil, hdd, List.dropLast]
        rw [this]
        exact ih (x :: xs).dropLast
          (fun y hy => ht y (List.dropLast_subset _ hy)) hsl'
    · have hc : CleanComp c := ⟨hnil, hdot, hdd, hslc⟩
      rw [pathStep_clean ([] :: t) c hc]
      have : ([] :: t) ++ [c] = [] :: (t ++ [c]) := by simp
      rw [this]
      refine ih (t ++ [c]) ?_ hsl'
      intro x hx
      rcases List.mem_append.mp hx with h | h
      · exact ht x h
      · rw [List.mem_singleton.mp h]; exact hc

/-- With an absolute current directory the assembled path is absolute. -/
theorem absOf_head (eu : List Char → List Char) (p cur : List Char)
    (hcur : cur.head? = some '/') :
    (absOf eu p cur).head? = some '/' := by
  obtain ⟨a, as, rfl⟩ : ∃ a as, cur = a :: as := by
    cases cur with
    | nil => simp at hcur
    | cons a as => exact ⟨a, as, rfl⟩
  have ha : a = '/' := by simpa using hcur
  subst ha
  simp only [absOf]
  by_cases h1 : (if p.head? = some '~' then eu p else p).head? = some '/'
  · rw [if_pos h1]; exact h1
  · rw [if_neg h1]
    split <;> simp

/-- `normalizeAbs` on an absolute path yields a normalised absolute path
built from clean components. -/
theorem normalizeAbs_shape (path2 : List Char)
    (hhead : path2.head? = some '/') :
    ∃ t, (∀ x ∈ t, CleanComp x) ∧ normalizeAbs path2 = normedOf t := by
  obtain ⟨rest, hrest⟩ : ∃ rest, path2 = '/' :: rest := by
    cases path2 with
    | nil => simp at hhead
    | cons a as =>
      simp only [List.head?_cons, Option.some.injEq] at hhead
      exact ⟨as, by rw [hhead]⟩
  subst hrest
  unfold normalizeAbs
  rw [splitChar_cons_sep]
  have hstep0 : pathStep [] [] = [[]] := by simp [pathStep]
  rw [List.foldl_cons, hstep0]
  obtain ⟨t', ht', heq⟩ := foldl_pathStep_inv (splitChar '/' rest) []
    (by simp) (fun x hx => not_mem_of_mem_splitChar '/' rest x hx)
  rw [heq]
  by_cases htn : t' = []
  · subst htn
    exact ⟨[], by simp, by simp [normedOf]⟩
  · refine ⟨t', ht', ?_⟩
    rw [if_neg (by simpa [List.cons.injEq] using htn)]
    simp [normedOf, htn]

/-- A normalised absolute path is a fixed point of `normalizeAbs`. -/
theorem normalizeAbs_normed (t : List (List Char))
    (ht : ∀ x ∈ t, CleanComp x) :
    normalizeAbs (normedOf t) = normedOf t := by
  cases t with
  | nil =>
    have h1 : normedOf ([] : List (List Char)) = ['/'] := by simp [normedOf]
    rw [h1]
    unfold normalizeAbs
    have h2 : splitChar '/' ['/'] = [[], []] := by decide
    have h3 : ([[], []] : List (List Char)).foldl pathStep [] = [[]] := by decide
    rw [h2, h3, if_pos rfl]
  | cons x xs =>
    have hnormed : normedOf (x :: xs) = '/' :: joinSep ['/'] (x :: xs) := by
      cases xs <;> simp [normedOf, joinSep]
    rw [hnormed]
    unfold normalizeAbs
    have hne : ∀ y ∈ x :: xs, '/' ∉ y := fun y hy => (ht y hy).2.2.2
    rw [splitChar_cons_sep, splitChar_joinSep '/' (x :: xs) (by simp) hne]
    have hstep0 : pathStep [] [] = [[]] := by simp [pathStep]
    rw [List.foldl_cons, hstep0,
      foldl_pathStep_clean (x :: xs) [[]] (by simp) ht]
    have hcons : ([[]] : List (List Char)) ++ x :: xs = [] :: x :: xs := by simp
    rw [hcons, if_neg (by simp)]
    cases xs <;> simp [joinSep]

/-- The head of a normalised absolute path is `/` (and never `:` or
`~`). -/
theorem normedOf_head (t : List (List Char)) :
    (normedOf t).head? = some '/' := by
  cases t with
  | nil => simp [normedOf]
  | cons x xs => cases xs <;> simp [normedOf, joinSep]

/-- A normalised absolute path is a fixed point of `resolve_path`. -/
theorem resolve_path_normed (eu : List Char → List Char)
    (t : List (List Char)) (cur : List Char)
    (ht : ∀ x ∈ t, CleanComp x) :
    resolve_path eu (normedOf t) cur = normedOf t := by
  have hh := normedOf_head t
  unfold resolve_path
  rw [if_neg (by rw [hh]; decide)]
  have htld : ¬ (normedOf t).head? = some '~' := by rw [hh]; simp
  have habs : absOf eu (normedOf t) cur = normedOf t := by
    simp only [absOf]
    rw [if_neg htld, if_pos hh]
  rw [habs, normalizeAbs_normed t ht]

/-- Idempotence of `resolve_path` for nonempty paths and an absolute
current directory. -/
theorem resolve_path_idem (eu : List Char → List Char) (p cur : List Char)
    (hcur : cur.head? = some '/') :
    resolve_path eu (resolve_path eu p cur) cur = resolve_path eu p cur := by
  by_cases hc : p.head? = some ':'
  · have hr : resolve_path eu p cur =
        if 1 < p.length then p else [':', '/'] := by
      unfold resolve_path; rw [if_pos hc]
    rw [hr]
    by_cases hl : 1 < p.length
    · rw [if_pos hl]
      unfold resolve_path
      rw [if_pos hc, if_pos hl]
    · rw [if_neg hl]
      unfold resolve_path
      rw [if_pos (by decide), if_pos (by decide)]
  · have hr : resolve_path eu p cur = normalizeAbs (absOf eu p cur) := by
      unfold resolve_path; rw [if_neg hc]
    obtain ⟨t, ht, hn⟩ := normalizeAbs_shape _ (absOf_head eu p cur hcur)
    rw [hr, hn, resolve_path_normed eu t cur ht]

/-- `a/./b`, `a//b` and `a/b/` all resolve identically, for any nonempty
current directory. -/
theorem resolve_path_slash_variants (eu : List Char → List Char)
    (cur : List Char) (hcur : cur ≠ []) :
    resolve_path eu "a/./b".toList cur = resolve_path eu "a//b".toList cur ∧
    resolve_path eu "a//b".toList cur = resolve_path eu "a/b/".toList cur := by
  obtain ⟨A, hA⟩ : ∃ A, ∀ p : List Char, p.head? = some 'a' →
      splitChar '/' (absOf eu p cur) = A ++ splitChar '/' p := by
    by_cases hg : cur.getLast? = some '/'
    · refine ⟨splitChar '/' cur.dropLast, ?_⟩
      intro p hp
      have htl : ¬ p.head? = some '~' := by rw [hp]; simp
      have hsl : ¬ p.head? = some '/' := by rw [hp]; simp
      have hlast : cur.getLast hcur = '/' := by
        have h := List.getLast?_eq_getLast cur hcur
        rw [h] at hg
        exact Option.some.inj hg
      have hdecomp : cur = cur.dropLast ++ ['/'] := by
        conv_lhs => rw [← List.dropLast_append_getLast hcur]
        rw [hlast]
      simp only [absOf]
      rw [if_neg htl, if_neg hsl, if_pos hg]
      calc splitChar '/' (cur ++ p)
          = splitChar '/' (cur.dropLast ++ '/' :: p) := by
            conv_lhs => rw [hdecomp]
            rw [List.append_assoc]; rfl
        _ = splitChar '/' cur.dropLast ++ splitChar '/' p :=
            splitChar_append_cons '/' cur.dropLast p
    · refine ⟨splitChar '/' cur, ?_⟩
      intro p hp
      have htl : ¬ p.head? = some '~' := by rw [hp]; simp
      have hsl : ¬ p.head? = some '/' := by rw [hp]; simp
      simp only [absOf]
      rw [if_neg htl, if_neg hsl, if_neg hg]
      exact splitChar_append_cons '/' cur p
  have hfold : ∀ p : List Char, p.head? = some 'a' →
      (splitChar '/' (absOf eu p cur)).foldl pathStep [] =
        (splitChar '/' p).foldl pathStep (A.foldl pathStep []) := by
    intro p hp
    rw [hA p hp, List.foldl_append]
  have hab : ∀ a0 : List (List Char),
      List.foldl pathStep a0 [['a'], ['.'], ['b']] = a0 ++ [['a'], ['b']] ∧
      List.foldl pathStep a0 [['a'], [], ['b']] = a0 ++ [['a'], ['b']] ∧
      List.foldl pathStep a0 [['a'], ['b'], []] = a0 ++ [['a'], ['b']] := by
    intro a0
    refine ⟨?_, ?_, ?_⟩
    · rw [List.foldl_cons, pathStep_clean a0 ['a'] (by decide),
        List.foldl_cons,
        show pathStep (a0 ++ [['a']]) ['.'] = a0 ++ [['a']] by simp [pathStep],
        List.foldl_cons, pathStep_clean _ ['b'] (by decide), List.foldl_nil]
      simp
    · rw [List.foldl_cons, pathStep_clean a0 ['a'] (by decide),
        List.foldl_cons, pathStep_nil_of_ne _ (by simp),
        List.foldl_cons, pathStep_clean _ ['b'] (by decide), List.foldl_nil]
      simp
    · rw [List.foldl_cons, pathStep_clean a0 ['a'] (by decide),
        List.foldl_cons, pathStep_clean _ ['b'] (by decide),
        List.foldl_cons, pathStep_nil_of_ne _ (by simp), List.foldl_nil]
      simp
  have key : ∀ p q : List Char, p.head? = some 'a' → q.head? = some 'a' →
      splitChar '/' p = [['a'], ['.'], ['b']] ∨
        splitChar '/' p = [['a'], [], ['b']] ∨
        splitChar '/' p = [['a'], ['b'], []] →
      splitChar '/' q = [['a'], ['.'], ['b']] ∨
        splitChar '/' q = [['a'], [], ['b']] ∨
        splitChar '/' q = [['a'], ['b'], []] →
      resolve_path eu p cur = resolve_path eu q cur := by
    intro p q hp hq hsp hsq
    have hcp : ¬ p.head? = some ':' := by rw [hp]; simp
    have hcq : ¬ q.head? = some ':' := by rw [hq]; simp
    unfold resolve_path
    rw [if_neg hcp, if_neg hcq]
    unfold normalizeAbs
    have e1 : (splitChar '/' (absOf eu p cur)).foldl pathStep [] =
        A.foldl pathStep [] ++ [['a'], ['b']] := by
      rw [hfold p hp]
      rcases hsp with h | h | h <;>
        rw [h] <;> [exact (hab _).1; exact (hab _).2.1; exact (hab _).2.2]
    have e2 : (splitChar '/' (absOf eu q cur)).foldl pathStep [] =
        A.foldl pathStep [] ++ [['a'], ['b']] := by
      rw [hfold q hq]
      rcases hsq with h | h | h <;>
        rw [h] <;> [exact (hab _).1; exact (hab _).2.1; exact (hab _).2.2]
    rw [e1, e2]
  constructor
  · exact key _ _ (by decide) (by decide) (Or.inl (by decide))
      (Or.inr (Or.inl (by decide)))
  · exact key _ _ (by decide) (by decide) (Or.inr (Or.inl (by decide)))
      (Or.inr (Or.inr (by decide)))

/-! ## Claims about the path router and path normalisation -/

/-- Claim C1: for every nonempty path `p` presented to the router while a
session is attached, `get_dev_and_path` returns: the current device and
`p` without its leading `:` when `p` starts with `:`; the current device
and `p` unchanged when `p ++ "/"` starts with one of the session's root
directories; the current device and `p` with the `name_path` prefix (up
to but excluding its trailing `/`) removed — an empty remainder becoming
`/` — when `p ++ "/"` starts with `name_path`; and no device with `p`
unchanged otherwise. -/
theorem get_dev_and_path_attached_spec (d : DevState) (p : List Char)
    (hp : p ≠ []) :
    get_dev_and_path (some d) p = routeSpec d p := by
  unfold get_dev_and_path routeSpec DevState.is_root_path
  simp only [List.length_dropLast]

/-- Witness for C1 on a concrete session and path. -/
theorem get_dev_and_path_attached_spec_witness :
    get_dev_and_path (some ⟨["/flash/".toList, "/sd/".toList], "/tty/".toList⟩)
        "/flash/lib".toList =
      routeSpec ⟨["/flash/".toList, "/sd/".toList], "/tty/".toList⟩
        "/flash/lib".toList :=
  get_dev_and_path_attached_spec _ _ (by decide)

/-- Claim C9 counterexample: `resolve_path` is not idempotent for every
current directory.  With the reachable current directory `:/flash`
(stored unchanged by `cd :/flash`) and path `..`, the first pass pops
`flash` and returns `":"`, and re-resolving that turns the lone `:` into
`":/"`.  A relative current directory also fails: `a` from `x` gives
`x/a`, which re-resolves to `x/x/a`. -/
theorem resolve_path_not_idem_counterexample :
    resolve_path (fun s => s) "..".toList ":/flash".toList = ":".toList ∧
    resolve_path (fun s => s)
        (resolve_path (fun s => s) "..".toList ":/flash".toList)
        ":/flash".toList = ":/".toList ∧
    (":".toList : List Char) ≠ ":/".toList ∧
    resolve_path (fun s => s) "a".toList "x".toList = "x/a".toList ∧
    resolve_path (fun s => s)
        (resolve_path (fun s => s) "a".toList "x".toList)
        "x".toList = "x/x/a".toList ∧
    ("x/a".toList : List Char) ≠ "x/x/a".toList := by decide

/-- Claim C9 (amended): path normalisation is idempotent
(`resolve_path (resolve_path p cur) cur = resolve_path p cur`) for every
nonempty path whenever the current directory is absolute (begins with
`/`) — for a `:`-prefixed or relative current directory a second pass
can change the result — and the inputs `a/./b`, `a//b` and `a/b/` all
normalise to the same result. -/
theorem resolve_path_idem_and_variants (eu : List Char → List Char)
    (p cur : List Char) (hp : p ≠ []) (hcur : cur.head? = some '/')
    (heu : ∀ s, eu s ≠ []) :
    resolve_path eu (resolve_path eu p cur) cur = resolve_path eu p cur ∧
    resolve_path eu "a/./b".toList cur = resolve_path eu "a//b".toList cur ∧
    resolve_path eu "a//b".toList cur = resolve_path eu "a/b/".toList cur := by
  have hcne : cur ≠ [] := by intro h; rw [h] at hcur; simp at hcur
  exact ⟨resolve_path_idem eu p cur hcur,
    (resolve_path_slash_variants eu cur hcne).1,
    (resolve_path_slash_variants eu cur hcne).2⟩

/-- Witness for C9 at a concrete path, current directory and
`expanduser`. -/
theorem resolve_path_idem_and_variants_witness :
    resolve_path (fun _ => ['/'])
        (resolve_path (fun _ => ['/']) "/x".toList "/".toList) "/".toList =
      resolve_path (fun _ => ['/']) "/x".toList "/".toList ∧
    resolve_path (fun _ => ['/']) "a/./b".toList "/".toList =
      resolve_path (fun _ => ['/']) "a//b".toList "/".toList ∧
    resolve_path (fun _ => ['/']) "a//b".toList "/".toList =
      resolve_path (fun _ => ['/']) "a/b/".toList "/".toList :=
  resolve_path_idem_and_variants (fun _ => ['/']) "/x".toList "/".toList
    (by decide) (by decide) (fun _ => List.cons_ne_nil _ _)

/-- Claim C10: when no device is attached, the router returns no device
for every path; a leading `:` is still stripped and the remainder
returned with no device, so `auto` runs the operation on the host even
for a path that forces remote. -/
theorem no_device_routes_local (p rest : List Char)
    (eu : List Char → List Char) (hp : p ≠ []) :
    (get_dev_and_path none p).1 = none ∧
    get_dev_and_path none (':' :: rest) = (none, rest) ∧
    (auto none p eu).isLocal = true ∧
    auto none (':' :: rest) eu =
      .localCall (if rest.head? = some '~' then eu rest else rest) := by
  have h2 : get_dev_and_path none (':' :: rest) = (none, rest) := by
    unfold get_dev_and_path
    rw [if_pos (by simp)]
    simp
  have h1 : (get_dev_and_path none p).1 = none := by
    unfold get_dev_and_path
    split <;> rfl
  refine ⟨h1, h2, ?_, ?_⟩
  · rcases hgd : get_dev_and_path none p with ⟨dq, fn⟩
    have hd : dq = none := by rw [hgd] at h1; exact h1
    subst hd
    unfold auto
    rw [hgd]
    rfl
  · unfold auto
    rw [h2]

/-- Witness for C10 on concrete paths. -/
theorem no_device_routes_local_witness :
    (get_dev_and_path none "/flash/lib".toList).1 = none ∧
    get_dev_and_path none (':' :: "/main.py".toList) =
      (none, "/main.py".toList) ∧
    (auto none "/flash/lib".toList (fun s => s)).isLocal = true ∧
    auto none (':' :: "/main.py".toList) (fun s => s) =
      .localCall (if "/main.py".toList.head? = some '~' then "/main.py".toList
        else "/main.py".toList) :=
  no_device_routes_local "/flash/lib".toList "/main.py".toList (fun s => s)
    (by decide)

/-! ## Properties of `read_until` -/

/-- Whatever the poll script, the loop consumes a prefix of it, appends
exactly the consumed bytes in order, and mirrors each byte to the data
consumer. -/
theorem read_until_loop_decomp (ending : List Nat) (tmo : ℚ) :
    ∀ (polls : List (Option Nat)) (data : List Nat) (count : Nat),
      ∃ used,
        polls = used ++ (read_until_loop ending tmo polls data count).rest ∧
        (read_until_loop ending tmo polls data count).data =
          data ++ used.reduceOption ∧
        (read_until_loop ending tmo polls data count).sink =
          used.reduceOption.map (fun b => [b]) := by
  intro polls
  induction polls with
  | nil =>
    intro data count
    refine ⟨[], ?_, ?_, ?_⟩ <;> simp [read_until_loop]
  | cons p ps ih =>
    intro data count
    by_cases hs : ending.isSuffixOf data
    · refine ⟨[], ?_, ?_, ?_⟩ <;> simp [read_until_loop, hs]
    · cases p with
      | some b =>
        obtain ⟨used, h1, h2, h3⟩ := ih (data ++ [b]) 0
        refine ⟨some b :: used, ?_, ?_, ?_⟩
        · simpa [read_until_loop, hs] using h1
        · simpa [read_until_loop, hs] using h2
        · simpa [read_until_loop, hs] using h3
      | none =>
        by_cases htm : (100 : ℚ) * tmo ≤ (count : ℚ) + 1
        · refine ⟨[none], ?_, ?_, ?_⟩ <;> simp [read_until_loop, hs, htm]
        · obtain ⟨used, h1, h2, h3⟩ := ih data (count + 1)
          refine ⟨none :: used, ?_, ?_, ?_⟩
          · simpa [read_until_loop, hs, htm] using h1
          · simpa [read_until_loop, hs, htm] using h2
          · simpa [read_until_loop, hs, htm] using h3

/-- A pure idle run: with the counter at `count`, the loop tolerates
exactly `100 * t - count` further empty slices before returning. -/
theorem read_until_loop_idle (ending : List Nat) (t : ℕ) :
    ∀ (m count : ℕ) (data : List Nat), ¬ ending.isSuffixOf data →
      count < 100 * t → 100 * t ≤ count + m →
      read_until_loop ending (t : ℚ) (List.replicate m none) data count =
        ⟨data, List.replicate (m - (100 * t - count)) none, []⟩ := by
  intro m
  induction m with
  | zero => intro count data _ h1 h2; omega
  | succ m ih =>
    intro count data hs h1 h2
    rw [List.replicate_succ]
    by_cases hc : 100 * t ≤ count + 1
    · have hq : (100 : ℚ) * t ≤ (count : ℚ) + 1 := by exact_mod_cast hc
      simp only [read_until_loop, hs, if_false, if_neg hs, if_pos hq]
      have hone : 100 * t - count = 1 := by omega
      rw [hone]
      simp
    · have hq : ¬ (100 : ℚ) * t ≤ (count : ℚ) + 1 := by
        intro h; exact hc (by exact_mod_cast h)
      simp only [read_until_loop, if_neg hs, if_neg hq]
      rw [ih (count + 1) data hs (by omega) (by omega)]
      have : m - (100 * t - (count + 1)) = m + 1 - (100 * t - count) := by omega
      rw [this]

/-- Claim C5: `read_until` first performs the `min_bytes` read (`init`,
handed to the sink as its first chunk), then polls in 10 ms slices: a
slice with a byte appends it to the buffer and the sink and resets the
idle counter, an empty slice increments the counter, and the call
returns the full accumulated buffer as soon as it ends with the sentinel
or after `100 * timeout` consecutive empty slices. -/
theorem read_until_spec (ending : List Nat) (t : ℕ) (init : List Nat)
    (polls : List (Option Nat)) (ht : 1 ≤ t) :
    (ending.isSuffixOf init →
      read_until ending (t : ℚ) init polls = ⟨init, polls, [init]⟩) ∧
    (∃ used, polls = used ++ (read_until ending (t : ℚ) init polls).rest ∧
      (read_until ending (t : ℚ) init polls).data =
        init ++ used.reduceOption ∧
      (read_until ending (t : ℚ) init polls).sink =
        init :: used.reduceOption.map (fun b => [b])) ∧
    (∀ ps (data : List Nat) count b, ¬ ending.isSuffixOf data →
      read_until_loop ending (t : ℚ) (some b :: ps) data count =
        ⟨(read_until_loop ending (t : ℚ) ps (data ++ [b]) 0).data,
         (read_until_loop ending (t : ℚ) ps (data ++ [b]) 0).rest,
         [b] :: (read_until_loop ending (t : ℚ) ps (data ++ [b]) 0).sink⟩) ∧
    (∀ ps (data : List Nat) count, ¬ ending.isSuffixOf data →
      read_until_loop ending (t : ℚ) (none :: ps) data count =
        if (100 : ℚ) * t ≤ (count : ℚ) + 1 then ⟨data, ps, []⟩
        else read_until_loop ending (t : ℚ) ps data (count + 1)) ∧
    (∀ m, ¬ ending.isSuffixOf init → 100 * t ≤ m →
      read_until ending (t : ℚ) init (List.replicate m none) =
        ⟨init, List.replicate (m - 100 * t) none, [init]⟩) := by
  refine ⟨?_, ?_, ?_, ?_, ?_⟩
  · intro h
    cases polls <;> simp [read_until, read_until_loop, h]
  · obtain ⟨used, h1, h2, h3⟩ := read_until_loop_decomp ending (t : ℚ) polls init 0
    exact ⟨used, h1, h2, by simp [read_until, h3]⟩
  · intro ps data count b hs
    simp [read_until_loop, hs]
  · intro ps data count hs
    by_cases htm : (100 : ℚ) * t ≤ (count : ℚ) + 1 <;>
      simp [read_until_loop, hs, htm]
  · intro m hs hm
    unfold read_until
    rw [read_until_loop_idle ending t m 0 init hs (by omega) (by omega)]
    simp

/-- Witness for C5 on a concrete sentinel, timeout and poll script. -/
theorem read_until_spec_witness :
    ((([4] : List Nat)).isSuffixOf [5] →
      read_until [4] ((1 : ℕ) : ℚ) [5] [some 4] = ⟨[5], [some 4], [[5]]⟩) ∧
    (∃ used, [some 4] = used ++ (read_until [4] ((1 : ℕ) : ℚ) [5] [some 4]).rest ∧
      (read_until [4] ((1 : ℕ) : ℚ) [5] [some 4]).data =
        [5] ++ used.reduceOption ∧
      (read_until [4] ((1 : ℕ) : ℚ) [5] [some 4]).sink =
        [5] :: used.reduceOption.map (fun b => [b])) ∧
    (∀ ps (data : List Nat) count b, ¬ ([4] : List Nat).isSuffixOf data →
      read_until_loop [4] ((1 : ℕ) : ℚ) (some b :: ps) data count =
        ⟨(read_until_loop [4] ((1 : ℕ) : ℚ) ps (data ++ [b]) 0).data,
         (read_until_loop [4] ((1 : ℕ) : ℚ) ps (data ++ [b]) 0).rest,
         [b] :: (read_until_loop [4] ((1 : ℕ) : ℚ) ps (data ++ [b]) 0).sink⟩) ∧
    (∀ ps (data : List Nat) count, ¬ ([4] : List Nat).isSuffixOf data →
      read_until_loop [4] ((1 : ℕ) : ℚ) (none :: ps) data count =
        if (100 : ℚ) * (1 : ℕ) ≤ (count : ℚ) + 1 then ⟨data, ps, []⟩
        else read_until_loop [4] ((1 : ℕ) : ℚ) ps data (count + 1)) ∧
    (∀ m, ¬ ([4] : List Nat).isSuffixOf [5] → 100 * 1 ≤ m →
      read_until [4] ((1 : ℕ) : ℚ) [5] (List.replicate m none) =
        ⟨[5], List.replicate (m - 100 * 1) none, [[5]]⟩) :=
  read_until_spec [4] 1 [5] [some 4] (by decide)

/-! ## Properties of `exec_raw_no_follow` -/

theorem chunked_eq_nil_iff (c : Nat) (hc : 0 < c) (cmd : List Nat) :
    chunked c hc cmd = [] ↔ cmd = [] := by
  cases cmd <;> simp [chunked]

theorem chunked_join_aux (c : Nat) (hc : 0 < c) :
    ∀ (n : ℕ) (cmd : List Nat), cmd.length ≤ n →
      (chunked c hc cmd).flatten = cmd := by
  intro n
  induction n with
  | zero =>
    intro cmd h
    have : cmd = [] := List.eq_nil_of_length_eq_zero (Nat.le_zero.mp h)
    subst this
    simp [chunked]
  | succ n ih =>
    intro cmd h
    cases cmd with
    | nil => simp [chunked]
    | cons a as =>
      simp only [chunked, List.flatten_cons]
      rw [ih ((a :: as).drop c) (by simp only [List.length_drop, List.length_cons] at h ⊢; omega)]
      exact List.take_append_drop c (a :: as)

/-- The chunks written by the executor concatenate to the command. -/
theorem chunked_flatten (c : Nat) (hc : 0 < c) (cmd : List Nat) :
    (chunked c hc cmd).flatten = cmd :=
  chunked_join_aux c hc cmd.length cmd le_rfl

theorem chunked_mem_aux (c : Nat) (hc : 0 < c) :
    ∀ (n : ℕ) (cmd : List Nat), cmd.length ≤ n →
      ∀ ch ∈ chunked c hc cmd, 0 < ch.length ∧ ch.length ≤ c := by
  intro n
  induction n with
  | zero =>
    intro cmd h
    have : cmd = [] := List.eq_nil_of_length_eq_zero (Nat.le_zero.mp h)
    subst this
    simp [chunked]
  | succ n ih =>
    intro cmd h ch hch
    cases cmd with
    | nil => simp [chunked] at hch
    | cons a as =>
      simp only [chunked] at hch
      rcases List.mem_cons.mp hch with h1 | h1
      · subst h1
        constructor
        · simp [List.length_take]; omega
        · simp [List.length_take]
      · exact ih ((a :: as).drop c) (by simp only [List.length_drop, List.length_cons] at h ⊢; omega) ch h1

theorem chunked_dropLast_aux (c : Nat) (hc : 0 < c) :
    ∀ (n : ℕ) (cmd : List Nat), cmd.length ≤ n →
      ∀ ch ∈ (chunked c hc cmd).dropLast, ch.length = c := by
  intro n
  induction n with
  | zero =>
    intro cmd h
    have : cmd = [] := List.eq_nil_of_length_eq_zero (Nat.le_zero.mp h)
    subst this
    simp [chunked]
  | succ n ih =>
    intro cmd h ch hch
    cases cmd with
    | nil => simp [chunked] at hch
    | cons a as =>
      simp only [chunked] at hch
      by_cases hrest : chunked c hc ((a :: as).drop c) = []
      · rw [hrest] at hch
        simp at hch
      · have hdrop : (a :: as).drop c ≠ [] := by
          intro hd
          exact hrest (by rw [hd]; simp [chunked])
        have hlen : c < (a :: as).length := by
          by_contra hcon
          refine hdrop (List.drop_eq_nil_of_le ?_)
          simp only [List.length_cons]
          simp only [List.length_cons] at hcon
          omega
        rw [List.dropLast_cons_of_ne_nil hrest] at hch
        rcases List.mem_cons.mp hch with h1 | h1
        · subst h1
          simp only [List.length_take, List.length_cons]
          simp only [List.length_cons] at hlen
          omega
        · exact ih ((a :: as).drop c) (by simp only [List.length_drop, List.length_cons] at h ⊢; omega) ch h1

theorem chunked_length_aux (c : Nat) (hc : 0 < c) :
    ∀ (n : ℕ) (cmd : List Nat), cmd.length ≤ n →
      (chunked c hc cmd).length = (cmd.length + c - 1) / c := by
  intro n
  induction n with
  | zero =>
    intro cmd h
    have : cmd = [] := List.eq_nil_of_length_eq_zero (Nat.le_zero.mp h)
    subst this
    simp [chunked, Nat.div_eq_of_lt (by omega : c - 1 < c)]
  | succ n ih =>
    intro cmd h
    cases cmd with
    | nil => simp [chunked, Nat.div_eq_of_lt (by omega : c - 1 < c)]
    | cons a as =>
      simp only [chunked, List.length_cons]
      rw [ih ((a :: as).drop c) (by simp only [List.length_drop, List.length_cons] at h ⊢; omega)]
      simp only [List.length_drop, List.length_cons]
      by_cases hle : as.length + 1 ≤ c
      · have h1 : as.length + 1 - c = 0 := by omega
        rw [h1, Nat.zero_add, Nat.div_eq_of_lt (by omega : c - 1 < c)]
        have h2 : as.length + 1 + c - 1 = (as.length + c) := by omega
        rw [h2]
        rw [show as.length + c = as.length + 1 * c by ring]
        rw [Nat.add_mul_div_right _ _ hc]
        have : as.length / c = 0 := Nat.div_eq_of_lt (by omega)
        omega
      · have h2 : as.length + 1 - c + c - 1 = as.length := by omega
        have h3 : as.length + 1 + c - 1 = as.length + c := by omega
        rw [h2, h3, Nat.add_div_right _ hc]

/-- Claim C4: raw-mode execution first requires the buffer to end with a
`>` prompt (failing otherwise, with no bytes written), then writes the
source in consecutive chunks of the configured chunk size — the chunks
concatenate to the source, every chunk but the last has exactly
`chunk_size` bytes and there are `ceil(len / chunk_size)` of them — with
the configured pause slept after each chunk, then writes exactly one
`0x04`, then reads exactly two bytes, failing with the exec-rejected
error unless they are `OK`. -/
theorem exec_raw_no_follow_spec (c : Nat) (hc : 0 < c)
    (promptBuf ackBuf cmd : List Nat) :
    (¬ [62].isSuffixOf promptBuf →
      exec_raw_no_follow c hc promptBuf ackBuf cmd =
        ⟨[], some "could not enter raw repl".toList⟩) ∧
    ([62].isSuffixOf promptBuf →
      (exec_raw_no_follow c hc promptBuf ackBuf cmd).trace =
        (chunked c hc cmd).flatMap
          (fun ch => [WireEv.write ch, WireEv.sleepChunkWait]) ++
          [WireEv.write [4], WireEv.readTwo ackBuf]) ∧
    ([62].isSuffixOf promptBuf →
      ((exec_raw_no_follow c hc promptBuf ackBuf cmd).error = none ↔
        ackBuf = [79, 75])) ∧
    (chunked c hc cmd).flatten = cmd ∧
    (∀ ch ∈ (chunked c hc cmd).dropLast, ch.length = c) ∧
    (∀ ch ∈ chunked c hc cmd, 0 < ch.length ∧ ch.length ≤ c) ∧
    (chunked c hc cmd).length = (cmd.length + c - 1) / c := by
  refine ⟨?_, ?_, ?_, chunked_flatten c hc cmd,
    chunked_dropLast_aux c hc cmd.length cmd le_rfl,
    chunked_mem_aux c hc cmd.length cmd le_rfl,
    chunked_length_aux c hc cmd.length cmd le_rfl⟩
  · intro h
    simp [exec_raw_no_follow, h]
  · intro h
    by_cases hok : ackBuf = [79, 75] <;>
      simp [exec_raw_no_follow, h, hok]
  · intro h
    by_cases hok : ackBuf = [79, 75] <;>
      simp [exec_raw_no_follow, h, hok]

/-- Witness for C4 on a concrete chunk size, prompt, ack and command. -/
theorem exec_raw_no_follow_spec_witness :
    (¬ ([62] : List Nat).isSuffixOf [62] →
      exec_raw_no_follow 2 (by decide) [62] [79, 75] [10, 11, 12] =
        ⟨[], some "could not enter raw repl".toList⟩) ∧
    (([62] : List Nat).isSuffixOf [62] →
      (exec_raw_no_follow 2 (by decide) [62] [79, 75] [10, 11, 12]).trace =
        (chunked 2 (by decide) [10, 11, 12]).flatMap
          (fun ch => [WireEv.write ch, WireEv.sleepChunkWait]) ++
          [WireEv.write [4], WireEv.readTwo [79, 75]]) ∧
    (([62] : List Nat).isSuffixOf [62] →
      ((exec_raw_no_follow 2 (by decide) [62] [79, 75] [10, 11, 12]).error =
          none ↔ ([79, 75] : List Nat) = [79, 75])) ∧
    (chunked 2 (by decide) [10, 11, 12]).flatten = [10, 11, 12] ∧
    (∀ ch ∈ (chunked 2 (by decide) [10, 11, 12]).dropLast, ch.length = 2) ∧
    (∀ ch ∈ chunked 2 (by decide) [10, 11, 12],
      0 < ch.length ∧ ch.length ≤ 2) ∧
    (chunked 2 (by decide) [10, 11, 12]).length = (3 + 2 - 1) / 2 :=
  exec_raw_no_follow_spec 2 (by decide) [62] [79, 75] [10, 11, 12]

/-! ## Claims about remote-call output handling -/

/-- Claim C3 counterexample: a healthy `remote_eval` call whose snippet
produced a nonempty stderr stream still returns the parsed stdout value;
no exception carrying the two streams is raised. -/
theorem remote_eval_nonempty_stderr_counterexample :
    follow [55, 4] [69, 4] = .ok ([55], [69]) ∧
    ([69] : List Nat) ≠ [] ∧
    Device.remote_eval (fun b => (b.length : Int)) [55, 4] [69, 4] =
      .ok 1 := by
  refine ⟨?_, by decide, ?_⟩ <;> rfl

/-- Claim C3 (amended): `Device.remote` discards the stderr stream
(`output, _ = follow(...)`), so `remote_eval` parses and returns the
stdout stream even when stderr is nonempty; both streams are surfaced as
an exception only by `CpBoard.exec` (which `remote_eval` does not use),
and that exception is raised exactly when stderr is nonempty. -/
theorem remote_eval_discards_stderr (evalF : List Nat → Int)
    (stdoutRaw stderrRaw : List Nat)
    (h1 : [4].isSuffixOf stdoutRaw) (h2 : [4].isSuffixOf stderrRaw) :
    Device.remote_eval evalF stdoutRaw stderrRaw =
      .ok (evalF stdoutRaw.dropLast) ∧
    (stderrRaw.dropLast ≠ [] →
      CpBoard.exec stdoutRaw stderrRaw =
        .error ("exception".toList, stdoutRaw.dropLast, stderrRaw.dropLast)) ∧
    (stderrRaw.dropLast = [] →
      CpBoard.exec stdoutRaw stderrRaw = .ok stdoutRaw.dropLast) := by
  have hf : follow stdoutRaw stderrRaw =
      .ok (stdoutRaw.dropLast, stderrRaw.dropLast) := by
    simp [follow, h1, h2]
  refine ⟨?_, ?_, ?_⟩
  · simp only [Device.remote_eval, Device.remote_result, hf]
    rfl
  · intro he
    simp [CpBoard.exec, hf, he]
  · intro he
    simp [CpBoard.exec, hf, he]

/-- Witness for the amended C3 at concrete streams. -/
theorem remote_eval_discards_stderr_witness :
    Device.remote_eval (fun b => (b.length : Int)) [55, 4] [69, 4] =
      .ok ((fun b : List Nat => (b.length : Int)) ([55, 4] : List Nat).dropLast) ∧
    (([69, 4] : List Nat).dropLast ≠ [] →
      CpBoard.exec [55, 4] [69, 4] =
        .error ("exception".toList, ([55, 4] : List Nat).dropLast,
          ([69, 4] : List Nat).dropLast)) ∧
    (([69, 4] : List Nat).dropLast = [] →
      CpBoard.exec [55, 4] [69, 4] = .ok ([55, 4] : List Nat).dropLast) :=
  remote_eval_discards_stderr (fun b => (b.length : Int)) [55, 4] [69, 4]
    (by decide) (by decide)

/-! ## Properties of the hex framing -/

theorem hexlify_append (a b : List Nat) :
    hexlify (a ++ b) = hexlify a ++ hexlify b := by
  induction a with
  | nil => rfl
  | cons x xs ih => simp [hexlify, ih]

theorem length_hexlify (l : List Nat) : (hexlify l).length = 2 * l.length := by
  induction l with
  | nil => rfl
  | cons x xs ih =>
    simp only [hexlify, List.length_cons, ih]
    omega

theorem unhexDigit_hexDigit : ∀ n < 16, unhexDigit (hexDigit n) = n := by decide

/-- The hex round-trip is the identity on byte lists. -/
theorem unhexlify_hexlify (l : List Nat) (h : ∀ b ∈ l, b < 256) :
    unhexlify (hexlify l) = l := by
  induction l with
  | nil => rfl
  | cons b bs ih =>
    have hb : b < 256 := h b (List.mem_cons_self b bs)
    have h1 : unhexDigit (hexDigit (b / 16)) = b / 16 :=
      unhexDigit_hexDigit _ (by omega)
    have h2 : unhexDigit (hexDigit (b % 16)) = b % 16 :=
      unhexDigit_hexDigit _ (by omega)
    simp only [hexlify, unhexlify, h1, h2]
    rw [ih (fun x hx => h x (List.mem_cons_of_mem b hx))]
    congr 1
    omega

theorem map_hexlify_flatten (L : List (List Nat)) :
    (L.map hexlify).flatten = hexlify L.flatten := by
  induction L with
  | nil => rfl
  | cons x xs ih => simp [hexlify_append, ih]

theorem take_min_self {α : Type} (l : List α) (c : Nat) :
    l.take (min l.length c) = l.take c := by
  by_cases hle : c ≤ l.length
  · rw [Nat.min_eq_right hle]
  · rw [Nat.min_eq_left (by omega), List.take_length,
      List.take_of_length_le (by omega)]

theorem drop_min_self {α : Type} (l : List α) (c : Nat) :
    l.drop (min l.length c) = l.drop c := by
  by_cases hle : c ≤ l.length
  · rw [Nat.min_eq_right hle]
  · rw [Nat.min_eq_left (by omega), List.drop_length,
      List.drop_eq_nil_of_le (by omega)]

/-! ## Properties of the transfer hooks -/

/-- With a well-behaved device (every ACK is `0x06`), the sender runs to
completion: its windows are exactly the hex encodings of the
`halfB`-sized chunks of the source. -/
theorem send_loop_all_acks (halfB : Nat) (hB : 0 < halfB) :
    ∀ (n : Nat) (src : List Nat) (fuel m : Nat), src.length ≤ n →
      src.length ≤ fuel → (chunked halfB hB src).length ≤ m →
      send_loop halfB fuel src (List.replicate m [6]) =
        ⟨(chunked halfB hB src).map hexlify, (chunked halfB hB src).length,
          none, false⟩ := by
  intro n
  induction n with
  | zero =>
    intro src fuel m h _ _
    have : src = [] := List.eq_nil_of_length_eq_zero (Nat.le_zero.mp h)
    subst this
    cases fuel <;> simp [send_loop, chunked]
  | succ n ih =>
    intro src fuel m h hf hm
    cases src with
    | nil => cases fuel <;> simp [send_loop, chunked]
    | cons a as =>
      obtain ⟨f, rfl⟩ : ∃ f, fuel = f + 1 :=
        ⟨fuel - 1, by simp only [List.length_cons] at hf; omega⟩
      obtain ⟨m2, rfl⟩ : ∃ m2, m = m2 + 1 := by
        refine ⟨m - 1, ?_⟩
        simp only [chunked, List.length_cons] at hm
        omega
      simp only [send_loop, List.replicate_succ, List.headD_cons,
        List.tail_cons]
      rw [if_neg (List.cons_ne_nil a as),
        if_neg (show ¬ ([6] : List Nat) ≠ [6] by simp),
        take_min_self, drop_min_self,
        ih ((a :: as).drop halfB) f m2
          (by simp only [List.length_drop, List.length_cons] at h ⊢; omega)
          (by simp only [List.length_drop, List.length_cons] at hf ⊢; omega)
          (by simp only [chunked, List.length_cons] at hm; omega)]
      simp [chunked]

/-- With an even buffer size the device's hex demand per window is twice
the host's byte window, so the lockstep transfer completes and writes
back exactly the source bytes. -/
theorem xfer_host_to_device_even (halfB : Nat) (hB : 0 < halfB) :
    ∀ (n : Nat) (src : List Nat) (fuel : Nat), src.length ≤ n →
      (∀ b ∈ src, b < 256) → 2 * src.length ≤ fuel →
      xfer_host_to_device halfB (2 * halfB) fuel (2 * src.length) src [] =
        some src := by
  intro n
  induction n with
  | zero =>
    intro src fuel h _ _
    have : src = [] := List.eq_nil_of_length_eq_zero (Nat.le_zero.mp h)
    subst this
    cases fuel <;> simp [xfer_host_to_device]
  | succ n ih =>
    intro src fuel h h256 hf
    cases src with
    | nil => cases fuel <;> simp [xfer_host_to_device]
    | cons a as =>
      obtain ⟨f, rfl⟩ : ∃ f, fuel = f + 1 :=
        ⟨fuel - 1, by simp only [List.length_cons] at hf; omega⟩
      have hw1 : 1 ≤ min (a :: as).length halfB := by
        simp only [List.length_cons]
        omega
      have hw2 : min (a :: as).length halfB ≤ (a :: as).length :=
        Nat.min_le_left _ _
      have hplen : (hexlify ((a :: as).take (min (a :: as).length halfB))).length =
          2 * min (a :: as).length halfB := by
        rw [length_hexlify, List.length_take,
          Nat.min_eq_left (Nat.min_le_left _ _)]
      have hd : min (2 * (a :: as).length) (2 * halfB) =
          2 * min (a :: as).length halfB := by omega
      simp only [xfer_host_to_device]
      rw [if_neg (by simp : ¬ 2 * (a :: as).length = 0)]
      simp only [List.nil_append, hd]
      rw [if_neg (by rw [hplen]; omega)]
      have htake : (hexlify ((a :: as).take (min (a :: as).length halfB))).take
          (2 * min (a :: as).length halfB) =
          hexlify ((a :: as).take (min (a :: as).length halfB)) :=
        List.take_of_length_le (le_of_eq hplen)
      have hdropnil : (hexlify ((a :: as).take (min (a :: as).length halfB))).drop
          (2 * min (a :: as).length halfB) = ([] : List Nat) :=
        List.drop_eq_nil_of_le (le_of_eq hplen)
      rw [htake, hdropnil]
      have hrem : 2 * (a :: as).length - 2 * min (a :: as).length halfB =
          2 * ((a :: as).drop (min (a :: as).length halfB)).length := by
        simp only [List.length_drop]
        omega
      rw [hrem,
        ih ((a :: as).drop (min (a :: as).length halfB)) f
          (by simp only [List.length_drop, List.length_cons] at h ⊢; omega)
          (fun b hb => h256 b (List.drop_subset _ _ hb))
          (by simp only [List.length_drop, List.length_cons] at hf ⊢; omega)]
      rw [unhexlify_hexlify _ (fun b hb => h256 b (List.take_subset _ _ hb))]
      simp [List.take_append_drop]

/-! ## Claims about the file-transfer hooks -/

/-- Claim C6 counterexample: buffer size 3 satisfies B ≥ 2, but with a
2-byte file the host ships 2-character hex windows while the device
demands `min(2N, B) = 3` characters; the device blocks mid-window, the
host times out waiting for the second ACK and raises, and the device
never writes the 2 source bytes. -/
theorem host_to_device_odd_buffer_counterexample :
    ((2 ≤ 3 ∧ 3 % 2 = 1) ∧ (3 : Nat) / 2 = 1) ∧
    xfer_host_to_device (3 / 2) 3 (2 * 2) (2 * 2) [0, 0] [] = none ∧
    (send_file_to_remote 10 (3 / 2) [0, 0] [[6]]).failedAck = some [] := by
  decide

/-- Claim C6 (amended: the buffer size must be even, `B = 2 * halfB`):
for a host→device transfer of a file of `N` bytes, the host performs
exactly `ceil(N / halfB)` windows, consuming exactly one `0x06` ACK
before each, writing each window's `min(remaining, halfB)` source bytes
as twice as many hex characters — `2N` hex characters in total — and the
device-side receiver writes exactly the `N` original bytes to the
destination file. -/
theorem host_to_device_transfer_spec (halfB : Nat) (hB : 0 < halfB)
    (src : List Nat) (m : Nat) (h256 : ∀ b ∈ src, b < 256)
    (hm : (src.length + halfB - 1) / halfB ≤ m) :
    (send_loop halfB src.length src (List.replicate m [6])).windows =
      (chunked halfB hB src).map hexlify ∧
    (send_loop halfB src.length src (List.replicate m [6])).acksRead =
      (src.length + halfB - 1) / halfB ∧
    (send_loop halfB src.length src (List.replicate m [6])).failedAck =
      none ∧
    (send_loop halfB src.length src (List.replicate m [6])).stalled =
      false ∧
    ((chunked halfB hB src).map hexlify).flatten = hexlify src ∧
    (hexlify src).length = 2 * src.length ∧
    xfer_host_to_device halfB (2 * halfB) (2 * src.length)
      (2 * src.length) src [] = some src := by
  have hcount := chunked_length_aux halfB hB src.length src le_rfl
  have hml : (chunked halfB hB src).length ≤ m := by rw [hcount]; exact hm
  have hsl := send_loop_all_acks halfB hB src.length src src.length m
    le_rfl le_rfl hml
  exact ⟨by rw [hsl], by rw [hsl]; exact hcount, by rw [hsl], by rw [hsl],
    by rw [map_hexlify_flatten, chunked_flatten],
    length_hexlify src,
    xfer_host_to_device_even halfB hB src.length src (2 * src.length)
      le_rfl h256 le_rfl⟩

/-- Witness for the amended C6 on a 3-byte file with buffer size 4. -/
theorem host_to_device_transfer_spec_witness :
    (send_loop 2 ([1, 2, 255] : List Nat).length [1, 2, 255]
      (List.replicate 2 [6])).windows =
      (chunked 2 (by decide) [1, 2, 255]).map hexlify ∧
    (send_loop 2 ([1, 2, 255] : List Nat).length [1, 2, 255]
      (List.replicate 2 [6])).acksRead =
      (([1, 2, 255] : List Nat).length + 2 - 1) / 2 ∧
    (send_loop 2 ([1, 2, 255] : List Nat).length [1, 2, 255]
      (List.replicate 2 [6])).failedAck = none ∧
    (send_loop 2 ([1, 2, 255] : List Nat).length [1, 2, 255]
      (List.replicate 2 [6])).stalled = false ∧
    ((chunked 2 (by decide) [1, 2, 255]).map hexlify).flatten =
      hexlify [1, 2, 255] ∧
    (hexlify [1, 2, 255]).length = 2 * ([1, 2, 255] : List Nat).length ∧
    xfer_host_to_device 2 (2 * 2) (2 * ([1, 2, 255] : List Nat).length)
      (2 * ([1, 2, 255] : List Nat).length) [1, 2, 255] [] =
      some [1, 2, 255] :=
  host_to_device_transfer_spec 2 (by decide) [1, 2, 255] 2 (by decide)
    (by decide)

/-- Claim C7 counterexample: a bad ACK does fail the transfer (with the
`RuntimeError` of `send_file_to_remote`), and the current-device slot is
indeed left unchanged — but the session IS torn down: `Device.remote`'s
bare `except:` closes the serial link (`cpb = None`) before
re-raising. -/
theorem transfer_desync_closes_session_counterexample :
    (send_file_to_remote 10 1 [0, 0] [[0]]).failedAck = some [0] ∧
    (Device.remote_xfer_dispatch (some 7) true (some ['e'])).cpbOpen =
      false ∧
    (Device.remote_xfer_dispatch (some 7) true (some ['e'])).slot =
      some 7 := by decide

/-- Claim C7 (amended): when a transfer window does not observe the
expected `0x06`, `send_file_to_remote` raises `RuntimeError` before
writing the window; `Device.remote`'s catch-all closes the session's
serial link and re-raises, and the process-wide current-device slot is
left unchanged, still holding the now-closed session. -/
theorem transfer_desync_spec (t0 : ℚ) (halfB : Nat) (src : List Nat)
    (acks : List (List Nat)) (slot : Option Nat) (cpbOpen : Bool)
    (e : List Char) (hsrc : src ≠ []) (hack : acks.headD [] ≠ [6]) :
    (send_file_to_remote t0 halfB src acks).failedAck =
      some (acks.headD []) ∧
    (send_file_to_remote t0 halfB src acks).windows = [] ∧
    Device.remote_xfer_dispatch slot cpbOpen (some e) =
      ⟨slot, false, some e⟩ := by
  obtain ⟨a, as, rfl⟩ : ∃ a as, src = a :: as := by
    cases src with
    | nil => exact absurd rfl hsrc
    | cons a as => exact ⟨a, as, rfl⟩
  have hloop : send_loop halfB (as.length + 1) (a :: as) acks =
      ⟨[], 1, some (acks.headD []), false⟩ := by
    simp only [send_loop]
    rw [if_neg (List.cons_ne_nil a as), if_pos hack]
  refine ⟨?_, ?_, rfl⟩ <;>
    · simp only [send_file_to_remote, List.length_cons, hloop]

/-- Witness for the amended C7 with an exhausted ACK stream (the read
returns `b""`). -/
theorem transfer_desync_spec_witness :
    (send_file_to_remote 5 1 [9] []).failedAck =
      some (([] : List (List Nat)).headD []) ∧
    (send_file_to_remote 5 1 [9] []).windows = [] ∧
    Device.remote_xfer_dispatch (some 3) true (some ['x']) =
      ⟨some 3, false, some ['x']⟩ :=
  transfer_desync_spec 5 1 [9] [] (some 3) true ['x'] (by decide) (by decide)

/-- Claim C8 counterexample: the device→host receiver
(`recv_file_from_remote`) performs no assignment to the link timeout at
all — in particular it never sets it to 2 s — so the claim that both
hooks set the timeout to 2 s while active fails on the receiver. -/
theorem recv_file_no_timeout_counterexample :
    recv_file_from_remote 10 1 4 [48, 48] = ⟨[0], 1, false, [], 10⟩ ∧
    (2 : ℚ) ∉ (recv_file_from_remote 10 1 4 [48, 48]).timeoutsSet ∧
    (recv_file_from_remote 10 1 4 [48, 48]).finalTimeout = 10 := by decide

/-- Claim C8 (amended): only the host→device sender manages the link
timeout — it sets 2 s on entry and restores the saved value on normal
exit, while the desync error path leaves 2 s in place; the device→host
receiver never touches the timeout.  After either hook completes
normally the session's read timeout is therefore unchanged. -/
theorem xfer_hooks_timeout_spec (t0 : ℚ) (halfB filesize bufB : Nat)
    (src wire : List Nat) (acks : List (List Nat)) :
    (send_file_to_remote t0 halfB src acks).timeoutsSet.head? = some 2 ∧
    ((send_file_to_remote t0 halfB src acks).failedAck = none →
      (send_file_to_remote t0 halfB src acks).timeoutsSet = [2, t0] ∧
      (send_file_to_remote t0 halfB src acks).finalTimeout = t0) ∧
    (∀ a, (send_file_to_remote t0 halfB src acks).failedAck = some a →
      (send_file_to_remote t0 halfB src acks).timeoutsSet = [2] ∧
      (send_file_to_remote t0 halfB src acks).finalTimeout = 2) ∧
    (recv_file_from_remote t0 filesize bufB wire).timeoutsSet = [] ∧
    (recv_file_from_remote t0 filesize bufB wire).finalTimeout = t0 := by
  rcases hr : (send_loop halfB src.length src acks).failedAck with _ | a
  · refine ⟨?_, ?_, ?_, rfl, rfl⟩
    · simp [send_file_to_remote, hr]
    · intro _
      constructor <;> simp [send_file_to_remote, hr]
    · intro b hb
      exfalso
      simp [send_file_to_remote, hr] at hb
  · refine ⟨?_, ?_, ?_, rfl, rfl⟩
    · simp [send_file_to_remote, hr]
    · intro hnone
      exfalso
      simp [send_file_to_remote, hr] at hnone
    · intro b _
      constructor <;> simp [send_file_to_remote, hr]

/-- Witness for the amended C8 at concrete transfers. -/
theorem xfer_hooks_timeout_spec_witness :
    (send_file_to_remote 7 1 [0] [[6]]).timeoutsSet.head? = some 2 ∧
    ((send_file_to_remote 7 1 [0] [[6]]).failedAck = none →
      (send_file_to_remote 7 1 [0] [[6]]).timeoutsSet = [2, 7] ∧
      (send_file_to_remote 7 1 [0] [[6]]).finalTimeout = 7) ∧
    (∀ a, (send_file_to_remote 7 1 [0] [[6]]).failedAck = some a →
      (send_file_to_remote 7 1 [0] [[6]]).timeoutsSet = [2] ∧
      (send_file_to_remote 7 1 [0] [[6]]).finalTimeout = 2) ∧
    (recv_file_from_remote 7 1 4 [48, 48]).timeoutsSet = [] ∧
    (recv_file_from_remote 7 1 4 [48, 48]).finalTimeout = 7 :=
  xfer_hooks_timeout_spec 7 1 1 4 [0] [48, 48] [[6]]

/-! ## Properties of `strip_source` and the source assembly -/

theorem filter_dropWhile_ws (l : List Char) :
    (l.dropWhile isStripWs).filter (fun c => !(isStripWs c)) =
      l.filter (fun c => !(isStripWs c)) := by
  induction l with
  | nil => rfl
  | cons a as ih =>
    rw [List.dropWhile_cons]
    by_cases h : isStripWs a
    · rw [if_pos h, ih, List.filter_cons]
      simp [h]
    · rw [if_neg (by simp [h])]

/-- `.rstrip(' \t\n')` removes only whitespace. -/
theorem filter_rstripWs (s : List Char) :
    (rstripWs s).filter (fun c => !(isStripWs c)) =
      s.filter (fun c => !(isStripWs c)) := by
  unfold rstripWs
  calc ((s.reverse.dropWhile isStripWs).reverse).filter
        (fun c => !(isStripWs c))
      = ((s.reverse.dropWhile isStripWs).filter
          (fun c => !(isStripWs c))).reverse := List.filter_reverse _ _
    _ = (s.reverse.filter (fun c => !(isStripWs c))).reverse := by
        rw [filter_dropWhile_ws]
    _ = ((s.filter (fun c => !(isStripWs c))).reverse).reverse := by
        rw [List.filter_reverse]
    _ = s.filter (fun c => !(isStripWs c)) := List.reverse_reverse _

theorem filter_replicate_space (n : Nat) :
    (List.replicate n ' ').filter (fun c => !(isStripWs c)) = [] := by
  induction n with
  | zero => rfl
  | succ n ih =>
    rw [List.replicate_succ, List.filter_cons]
    simp [isStripWs, ih]

/-- The non-whitespace characters emitted by the strip loop are exactly
those of the kept tokens' text: comments and docstrings contribute
nothing, everything else survives. -/
theorem stripSourceLoop_filter :
    ∀ (ts : List Tok) (mod : List Char) (prev : TokKind) (lastLine : Int)
      (lastCol : Nat),
      (stripSourceLoop ts mod prev lastLine lastCol).filter
          (fun c => !(isStripWs c)) =
        mod.filter (fun c => !(isStripWs c)) ++
          (keptText prev ts).filter (fun c => !(isStripWs c)) := by
  intro ts
  induction ts with
  | nil =>
    intro mod prev lastLine lastCol
    simp [stripSourceLoop, keptText]
  | cons t ts ih =>
    intro mod prev lastLine lastCol
    simp only [stripSourceLoop, keptText]
    rw [ih, List.filter_append, ← List.append_assoc]
    congr 1
    have hmod2 : ∀ col : Nat,
        (if col < t.scol then
            mod ++ List.replicate (t.scol - col) ' '
          else mod).filter (fun c => !(isStripWs c)) =
        mod.filter (fun c => !(isStripWs c)) := by
      intro col
      split
      · rw [List.filter_append, filter_replicate_space, List.append_nil]
      · rfl
    by_cases hds : t.kind = TokKind.STRING ∧ prev = TokKind.INDENT
    · rw [if_pos hds, if_pos (Or.inl hds), filter_rstripWs, hmod2]
      simp
    · rw [if_neg hds]
      by_cases hcm : t.kind = TokKind.COMMENT
      · rw [if_pos hcm, if_pos (Or.inr hcm), filter_rstripWs, hmod2]
        simp
      · rw [if_neg hcm, if_neg (not_or.mpr ⟨hds, hcm⟩),
          List.filter_append, hmod2]

/-- On a stream with no comments and no docstrings the strip loop is the
plain renderer: every token's text appears verbatim at its column. -/
theorem stripSourceLoop_render :
    ∀ (ts : List Tok) (mod : List Char) (prev : TokKind) (lastLine : Int)
      (lastCol : Nat), noStripTokens prev ts →
      stripSourceLoop ts mod prev lastLine lastCol =
        renderLoop ts mod lastLine lastCol := by
  intro ts
  induction ts with
  | nil =>
    intro mod prev lastLine lastCol _
    rfl
  | cons t ts ih =>
    intro mod prev lastLine lastCol h
    obtain ⟨h1, h2, h3⟩ := h
    simp only [stripSourceLoop, renderLoop]
    rw [if_neg h2, if_neg h1]
    exact ih _ _ _ _ h3

/-- When the primary source's `@`-lines are exactly its leading lines,
the `filter` of `Device.remote` removes precisely those. -/
theorem remoteFuncLines_split (extraSources : List (List Char))
    (primarySource : List Char) (pre post : List (List Char))
    (hsplit : splitChar '\n' primarySource = pre ++ post)
    (hpre : ∀ l ∈ pre, l.take 1 = ['@'])
    (hpost : ∀ l ∈ post, ¬ l.take 1 = ['@']) :
    remoteFuncLines extraSources primarySource =
      (extraSources.flatMap (fun src => splitChar '\n' src ++ [[]])) ++
        post := by
  unfold remoteFuncLines
  rw [hsplit, List.filter_append]
  have h1 : pre.filter (fun line => line.take 1 ≠ ['@']) = [] := by
    rw [List.filter_eq_nil_iff]
    intro l hl
    simp [hpre l hl]
  have h2 : post.filter (fun line => line.take 1 ≠ ['@']) = post := by
    rw [List.filter_eq_self]
    intro l hl
    simpa using hpost l hl
  rw [h1, h2, List.nil_append]

/-! ## Claim about the remote source synthesis -/

/-- Claim C2: for a helper annotated with extra helpers, the source
shipped to the device is, in order: the source of each extra helper,
each followed by a blank line; the primary helper's source with its
leading decorator lines (the lines beginning with `@`) removed; then the
fixed `try/except/print` trailer invoking `NAME(arg1, ..., k=v, ...)`.
Comments and docstrings are stripped from the collected source — no
non-whitespace character of a comment or docstring survives and no other
token text is lost — while indentation is preserved: on a stream without
comments or docstrings the strip pass reproduces the token layout
verbatim, including the column padding. -/
theorem remote_source_assembly_spec (tokenize : List Char → List Tok)
    (buffer_size : Nat) (extraSources : List (List Char))
    (primarySource : List Char) (func_name : List Char)
    (argsArr kwargsArr : List (List Char)) (pre post : List (List Char))
    (hsplit : splitChar '\n' primarySource = pre ++ post)
    (hpre : ∀ l ∈ pre, l.take 1 = ['@'])
    (hpost : ∀ l ∈ post, ¬ l.take 1 = ['@']) :
    remote_func_src tokenize buffer_size extraSources primarySource
        func_name argsArr kwargsArr =
      replaceAll "BUFFER_SIZE".toList (Nat.toDigits 10 buffer_size)
        (strip_source (tokenize (joinSep ['\n']
            ((extraSources.flatMap (fun src => splitChar '\n' src ++ [[]])) ++
              post))) ++
          remoteTrailer func_name argsArr kwargsArr) ∧
    (∀ ts, (strip_source ts).filter (fun c => !(isStripWs c)) =
      (keptText TokKind.INDENT ts).filter (fun c => !(isStripWs c))) ∧
    (∀ ts, noStripTokens TokKind.INDENT ts →
      strip_source ts = renderTokens ts) := by
  refine ⟨?_, ?_, ?_⟩
  · unfold remote_func_src
    rw [remoteFuncLines_split extraSources primarySource pre post hsplit
      hpre hpost]
  · intro ts
    unfold strip_source
    rw [stripSourceLoop_filter]
    rfl
  · intro ts h
    unfold strip_source renderTokens
    exact stripSourceLoop_render ts [] TokKind.INDENT (-1) 0 h

/-- Witness for C2 on a concrete decorated helper source. -/
theorem remote_source_assembly_spec_witness :
    remote_func_src (fun _ => []) 32 ["x = 1".toList]
        "@extra_funcs(stat)\ndef f():\n  return 1".toList
        "f".toList ["7".toList] [] =
      replaceAll "BUFFER_SIZE".toList (Nat.toDigits 10 32)
        (strip_source ((fun _ => ([] : List Tok)) (joinSep ['\n']
            (((["x = 1".toList] : List (List Char)).flatMap
                (fun src => splitChar '\n' src ++ [[]])) ++
              ["def f():".toList, "  return 1".toList]))) ++
          remoteTrailer "f".toList ["7".toList] []) ∧
    (∀ ts, (strip_source ts).filter (fun c => !(isStripWs c)) =
      (keptText TokKind.INDENT ts).filter (fun c => !(isStripWs c))) ∧
    (∀ ts, noStripTokens TokKind.INDENT ts →
      strip_source ts = renderTokens ts) :=
  remote_source_assembly_spec (fun _ => []) 32 ["x = 1".toList]
    "@extra_funcs(stat)\ndef f():\n  return 1".toList "f".toList
    ["7".toList] [] ["@extra_funcs(stat)".toList]
    ["def f():".toList, "  return 1".toList] (by decide) (by decide)
    (by decide)

end CpShell
